import Mathlib

/-!
Shallow embedding of `qcodes/utils/threading_utils.py` (`RespondingThread`,
`thread_map`) and `qcodes/dataset/linked_datasets/links.py` (`Link`,
`_guid_pattern`), with theorems settling the specification claims.

Modelling conventions:
* A Python callable together with its positional and keyword arguments is a
  Lean function `List V → List (String × V) → Except E T`: `Except.ok v`
  models a normal return of `v`, `Except.error e` models the callable
  raising the exception value `e`.
* The mutable fields `_exception` / `_output` of a `RespondingThread` are
  `Option` fields of an immutable record; mutation becomes explicit state
  passing (`run` and `output` return the updated record).
* `output`'s `join` is modelled by only applying `output` to states in which
  the worker body has already run (or not run at all, for the pre-start
  state); real-time blocking and timeouts are not represented.
* Python truthiness of `if self._exception:` is `Option.isSome`: exception
  objects are always truthy.
-/

set_option maxHeartbeats 1000000

universe u v w

/-- A Python callable with positional arguments of type `List V` and keyword
arguments modelled as an association list; it either returns a `T` or raises
an exception value `E`. -/
def PyCallable (V E T : Type u) : Type u :=
  List V → List (String × V) → Except E T

/-- Embedding of `RespondingThread.__init__`'s state: the captured target,
args and kwargs, plus the two result slots `_exception` and `_output`
(both `None` at construction). -/
structure RespondingThread (V E T : Type u) : Type u where
  target : PyCallable V E T
  args : List V
  kwargs : List (String × V)
  _exception : Option E
  _output : Option T

namespace RespondingThread

variable {V E T : Type u}

/-- Embedding of `RespondingThread(target, args, kwargs)`: both result slots start unset
(`self._exception = None`, `self._output = None`). -/
def create (target : PyCallable V E T) (args : List V)
    (kwargs : List (String × V)) : RespondingThread V E T :=
  ⟨target, args, kwargs, none, none⟩

/-- Embedding of `RespondingThread.run`: call the target on the captured
arguments; store the returned value in `_output` on normal completion, and
store the raised exception in `_exception` on failure.  The function is
total: neither branch lets the failure escape the worker body. -/
def run (t : RespondingThread V E T) : RespondingThread V E T :=
  match t.target t.args t.kwargs with
  | Except.ok v => { t with _output := some v }
  | Except.error e => { t with _exception := some e }

/-- Embedding of `RespondingThread.output` (after the `join`): if an
exception is stored, clear it from the handle and raise it; otherwise return
the stored output.  The first component is the collected result
(`Except.error e` models the re-raise), the second the updated handle. -/
def output (t : RespondingThread V E T) :
    Except E (Option T) × RespondingThread V E T :=
  match t._exception with
  | some e => (Except.error e, { t with _exception := none })
  | none => (Except.ok t._output, t)

/-- The handle states reachable in a handle's lifecycle: construction, the
worker body running once from the constructed state, and any number of
collections. -/
inductive Reachable : RespondingThread V E T → Prop
  | created (c : PyCallable V E T) (a : List V) (k : List (String × V)) :
      Reachable (create c a k)
  | ran (c : PyCallable V E T) (a : List V) (k : List (String × V)) :
      Reachable ((create c a k).run)
  | collected {t : RespondingThread V E T} :
      Reachable t → Reachable (t.output).2

/-- At most one of the two result slots is set. -/
def atMostOne (t : RespondingThread V E T) : Prop :=
  t._exception = none ∨ t._output = none

/-- Exactly one of the two result slots is set. -/
def exactlyOne (t : RespondingThread V E T) : Prop :=
  (t._exception = none ↔ t._output.isSome = true)

end RespondingThread

section ThreadMap

variable {V E T : Type u}

/-- The thread list built by `thread_map`'s comprehension
`[RespondingThread(target=c, args=a, kwargs=k) for c, a, k in zip(callables, args, kwargs)]`.
Python's `zip` truncates to the shortest of the three sequences, as does the
nested `List.zip` here. -/
def buildThreads (callables : List (PyCallable V E T))
    (args : List (List V)) (kwargs : List (List (String × V))) :
    List (RespondingThread V E T) :=
  (callables.zip (args.zip kwargs)).map
    (fun p => RespondingThread.create p.1 p.2.1 p.2.2)

/-- The collection comprehension `[t.output() for t in threads]`: outputs are
collected in list order, and the first re-raised exception aborts the
comprehension and propagates to the caller. -/
def collectAll : List (RespondingThread V E T) → Except E (List (Option T))
  | [] => Except.ok []
  | t :: ts =>
    match (RespondingThread.output t).1 with
    | Except.error e => Except.error e
    | Except.ok v => (collectAll ts).map (fun l => v :: l)

/-- Embedding of `thread_map`: default `args` to `len(callables)` empty
tuples and `kwargs` to `len(callables)` empty dicts, build one
`RespondingThread` per zipped triple, start them all (each worker body
`run`s), then collect every output in input order. -/
def thread_map (callables : List (PyCallable V E T))
    (args : Option (List (List V))) (kwargs : Option (List (List (String × V)))) :
    Except E (List (Option T)) :=
  let args' := match args with
    | none => List.replicate callables.length ([] : List V)
    | some a => a
  let kwargs' := match kwargs with
    | none => List.replicate callables.length ([] : List (String × V))
    | some k => k
  let threads := buildThreads callables args' kwargs'
  let started := threads.map RespondingThread.run
  collectAll started

/-- The outcome of calling `callables[i]` on `args[i]` / `kwargs[i]`, for
each index the zipped triple exists at. -/
def outcomes (callables : List (PyCallable V E T))
    (args : List (List V)) (kwargs : List (List (String × V))) :
    List (Except E T) :=
  (callables.zip (args.zip kwargs)).map (fun p => p.1 p.2.1 p.2.2)

/-- Ordered-collection semantics, stated from the spec's words: return the
values in input order, unless some callable failed, in which case raise the
lowest-index failure and discard everything else. -/
def firstFailureSemantics : List (Except E T) → Except E (List (Option T))
  | [] => Except.ok []
  | Except.error e :: _ => Except.error e
  | Except.ok v :: rest =>
    (firstFailureSemantics rest).map (fun l => some v :: l)

/-- Resolve `thread_map`'s optional `args` exactly as the source does. -/
def resolveArgs (callables : List (PyCallable V E T)) :
    Option (List (List V)) → List (List V)
  | none => List.replicate callables.length ([] : List V)
  | some a => a

/-- Resolve `thread_map`'s optional `kwargs` exactly as the source does. -/
def resolveKwargs (callables : List (PyCallable V E T)) :
    Option (List (List (String × V))) → List (List (String × V))
  | none => List.replicate callables.length ([] : List (String × V))
  | some k => k

theorem collectAll_map_run (l : List (PyCallable V E T × List V × List (String × V))) :
    collectAll ((l.map (fun p => RespondingThread.create p.1 p.2.1 p.2.2)).map
        RespondingThread.run)
      = firstFailureSemantics (l.map (fun p => p.1 p.2.1 p.2.2)) := by
  induction l with
  | nil => rfl
  | cons p rest ih =>
    simp only [List.map_cons, collectAll]
    cases h : p.1 p.2.1 p.2.2 with
    | ok v =>
      simp only [RespondingThread.run, RespondingThread.create, h,
        RespondingThread.output, firstFailureSemantics]
      simp only [RespondingThread.create] at ih
      rw [ih]
    | error e =>
      simp only [RespondingThread.run, RespondingThread.create, h,
        RespondingThread.output, firstFailureSemantics]

theorem thread_map_eq_spec (callables : List (PyCallable V E T))
    (args : Option (List (List V))) (kwargs : Option (List (List (String × V)))) :
    thread_map callables args kwargs
      = firstFailureSemantics
          (outcomes callables (resolveArgs callables args)
            (resolveKwargs callables kwargs)) := by
  have h := collectAll_map_run
    (callables.zip ((resolveArgs callables args).zip (resolveKwargs callables kwargs)))
  cases args <;> cases kwargs <;>
    simpa only [thread_map, buildThreads, outcomes, resolveArgs, resolveKwargs] using h

theorem firstFailureSemantics_map_ok (vs : List T) :
    firstFailureSemantics (E := E) (vs.map Except.ok) = Except.ok (vs.map some) := by
  induction vs with
  | nil => rfl
  | cons v rest ih => simp only [List.map_cons, firstFailureSemantics, ih, Except.map]

theorem firstFailureSemantics_error_at (l : List (Except E T)) (k : Nat) (e : E)
    (hk : l[k]? = some (Except.error e))
    (hok : ∀ j : Nat, j < k → ∀ r : Except E T, l[j]? = some r → ∃ v, r = Except.ok v) :
    firstFailureSemantics l = Except.error e := by
  induction l generalizing k with
  | nil => simp at hk
  | cons a rest ih =>
    cases k with
    | zero =>
      simp only [List.getElem?_cons_zero, Option.some_inj] at hk
      rw [hk]
      rfl
    | succ k' =>
      obtain ⟨v, hv⟩ := hok 0 (Nat.succ_pos k') a (by simp)
      subst hv
      simp only [firstFailureSemantics]
      rw [ih k' (by simpa using hk)
        (fun j hj r hr => hok (j + 1) (Nat.succ_lt_succ hj) r (by simpa using hr))]
      rfl

/-- Run the worker body of the thread at index `i`, leaving all other
threads' states untouched (each handle owns its result slots exclusively). -/
def runAt : List (RespondingThread V E T) → Nat → List (RespondingThread V E T)
  | [], _ => []
  | t :: ts, 0 => t.run :: ts
  | t :: ts, Nat.succ n => t :: runAt ts n

/-- Run the worker bodies one at a time in the order given by the schedule
`σ` (a completion order of the workers). -/
def runSchedule (ths : List (RespondingThread V E T)) : List Nat → List (RespondingThread V E T)
  | [] => ths
  | i :: σ => runSchedule (runAt ths i) σ

theorem runAt_getElem? (ths : List (RespondingThread V E T)) (i j : Nat) :
    (runAt ths i)[j]? =
      if i = j then (ths[j]?).map RespondingThread.run else ths[j]? := by
  induction ths generalizing i j with
  | nil => cases i <;> simp [runAt]
  | cons t ts ih =>
    cases i with
    | zero =>
      cases j with
      | zero => simp [runAt]
      | succ j' => rw [if_neg (by omega)]; simp [runAt]
    | succ i' =>
      cases j with
      | zero => rw [if_neg (by omega)]; simp [runAt]
      | succ j' =>
        simp only [runAt, List.getElem?_cons_succ]
        rw [ih i' j']
        rcases eq_or_ne i' j' with hij | hij
        · simp [hij]
        · rw [if_neg hij, if_neg (by omega)]

theorem runSchedule_getElem? (σ : List Nat) (ths : List (RespondingThread V E T))
    (hσ : σ.Nodup) (j : Nat) :
    (runSchedule ths σ)[j]? =
      if j ∈ σ then (ths[j]?).map RespondingThread.run else ths[j]? := by
  induction σ generalizing ths with
  | nil => simp [runSchedule]
  | cons i σ' ih =>
    simp only [runSchedule]
    rw [ih (runAt ths i) (List.Nodup.of_cons hσ) ]
    rcases eq_or_ne i j with hij | hij
    · subst hij
      have hnot : i ∉ σ' := (List.nodup_cons.mp hσ).1
      simp [hnot, runAt_getElem?]
    · rw [runAt_getElem?, if_neg hij]
      simp [List.mem_cons, Ne.symm hij]

theorem runSchedule_perm (ths : List (RespondingThread V E T)) (σ : List Nat)
    (hσ : σ.Perm (List.range ths.length)) :
    runSchedule ths σ = ths.map RespondingThread.run := by
  have hnd : σ.Nodup := hσ.nodup_iff.2 (List.nodup_range ths.length)
  have hmem : ∀ j : Nat, j ∈ σ ↔ j < ths.length := by
    intro j; rw [hσ.mem_iff, List.mem_range]
  apply List.ext_getElem?
  intro n
  rw [runSchedule_getElem? σ ths hnd n, List.getElem?_map]
  rcases Nat.lt_or_ge n ths.length with h | h
  · simp [(hmem n).2 h]
  · have : ths[n]? = none := List.getElem?_eq_none h
    rcases (em (n ∈ σ)) with hn | hn
    · exact absurd ((hmem n).1 hn) (Nat.not_lt.mpr h)
    · simp [hn, this]

/-- Observable scheduling events of one `thread_map` invocation: the worker
of slot `i` being started, and slot `i`'s result being collected. -/
inductive TMEvent : Type
  | start (i : Nat)
  | collect (i : Nat)
deriving DecidableEq

/-- The event order of `thread_map`'s body for a batch of `n` threads: the
`for t in threads: t.start()` loop emits all starts in index order, then the
collection comprehension emits all collects in index order. -/
def thread_map_trace (n : Nat) : List TMEvent :=
  (List.range n).map TMEvent.start ++ (List.range n).map TMEvent.collect

end ThreadMap

section Links

/-- Code-point ranges of Unicode general category Nd (decimal digits), as
recorded in CPython's Unicode database: in a `str` pattern compiled without
`re.ASCII`, Python's `\d` matches exactly these characters. -/
def ndRangeTable : List (Nat × Nat) :=
  [(0x30, 0x39), (0x660, 0x669), (0x6F0, 0x6F9), (0x7C0, 0x7C9),
   (0x966, 0x96F), (0x9E6, 0x9EF), (0xA66, 0xA6F), (0xAE6, 0xAEF),
   (0xB66, 0xB6F), (0xBE6, 0xBEF), (0xC66, 0xC6F), (0xCE6, 0xCEF),
   (0xD66, 0xD6F), (0xDE6, 0xDEF), (0xE50, 0xE59), (0xED0, 0xED9),
   (0xF20, 0xF29), (0x1040, 0x1049), (0x1090, 0x1099), (0x17E0, 0x17E9),
   (0x1810, 0x1819), (0x1946, 0x194F), (0x19D0, 0x19D9), (0x1A80, 0x1A89),
   (0x1A90, 0x1A99), (0x1B50, 0x1B59), (0x1BB0, 0x1BB9), (0x1C40, 0x1C49),
   (0x1C50, 0x1C59), (0xA620, 0xA629), (0xA8D0, 0xA8D9), (0xA900, 0xA909),
   (0xA9D0, 0xA9D9), (0xA9F0, 0xA9F9), (0xAA50, 0xAA59), (0xABF0, 0xABF9),
   (0xFF10, 0xFF19), (0x104A0, 0x104A9), (0x10D30, 0x10D39),
   (0x11066, 0x1106F), (0x110F0, 0x110F9), (0x11136, 0x1113F),
   (0x111D0, 0x111D9), (0x112F0, 0x112F9), (0x11450, 0x11459),
   (0x114D0, 0x114D9), (0x11650, 0x11659), (0x116C0, 0x116C9),
   (0x11730, 0x11739), (0x118E0, 0x118E9), (0x11950, 0x11959),
   (0x11C50, 0x11C59), (0x11D50, 0x11D59), (0x11DA0, 0x11DA9),
   (0x16A60, 0x16A69), (0x16AC0, 0x16AC9), (0x16B50, 0x16B59),
   (0x1D7CE, 0x1D7FF), (0x1E140, 0x1E149), (0x1E2F0, 0x1E2F9),
   (0x1E950, 0x1E959), (0x1FBF0, 0x1FBF9)]

/-- Python's `\d` on a `str` pattern: membership in Unicode category Nd. -/
def pyUnicodeDecimal (c : Char) : Bool :=
  ndRangeTable.any (fun p => decide (p.1 ≤ c.toNat) && decide (c.toNat ≤ p.2))

/-- The character class `[\da-f]` of `_guid_pattern`: a Unicode decimal
digit or a lowercase letter in a-f. -/
def guidClassChar (c : Char) : Bool :=
  pyUnicodeDecimal c || (('a' ≤ c) && (c ≤ 'f'))

/-- The spec's canonical lowercase-hex digit — an ASCII decimal digit or a
lowercase letter in a-f.  Used only by the spec-side canonical pattern; the
source matcher's class is `guidClassChar`, which is strictly wider. -/
def isLowerHex (c : Char) : Bool :=
  (('0' ≤ c) && (c ≤ '9')) || (('a' ≤ c) && (c ≤ 'f'))

/-- Consume exactly `n` characters of the class `hex`, returning the rest of
the input on success. -/
def takeClassChars (hex : Char → Bool) : Nat → List Char → Option (List Char)
  | 0, cs => some cs
  | Nat.succ _, [] => none
  | Nat.succ n, c :: cs => if hex c then takeClassChars hex n cs else none

/-- Consume one literal character. -/
def takeLit (ch : Char) : List Char → Option (List Char)
  | [] => none
  | c :: cs => if c = ch then some cs else none

/-- Consume the body `[\da-f]{8}-([\da-f]{4}-){3}[\da-f]{12}` of
`_guid_pattern` (the regex is deterministic: every quantifier has a fixed
count). -/
def consumeGuidBody (cs : List Char) : Option (List Char) := do
  let r1 ← takeClassChars guidClassChar 8 cs
  let r2 ← takeLit '-' r1
  let r3 ← takeClassChars guidClassChar 4 r2
  let r4 ← takeLit '-' r3
  let r5 ← takeClassChars guidClassChar 4 r4
  let r6 ← takeLit '-' r5
  let r7 ← takeClassChars guidClassChar 4 r6
  let r8 ← takeLit '-' r7
  takeClassChars guidClassChar 12 r8

/-- Truthiness of `_guid_pattern.match(s)`: `re.match` anchors at the start
of `s`, and Python's `$` matches at the end of the string or just before a
newline at the end of the string. -/
def guidPatternMatch (s : String) : Bool :=
  match consumeGuidBody s.data with
  | none => false
  | some r => r == [] || r == ['\n']

/-- The fields of the `Link` dataclass. -/
structure Link : Type where
  head : String
  tail : String
  edge_type : String
  description : String

/-- Embedding of `Link.validate_node`: return unless the guid matches `_guid_pattern`, in
which case raise `ValueError` with the message built in the source. -/
def validate_node (node_guid : String) (node : String) : Except String Unit :=
  if guidPatternMatch node_guid then Except.ok ()
  else Except.error ("The guid given for " ++ node ++ " is not a valid guid. Received "
    ++ node_guid ++ ".")

/-- Constructing a `Link`: the dataclass `__init__` stores the four fields,
then `__post_init__` validates `head` and `tail`; `edge_type` and
`description` are stored unvalidated. -/
def Link.create (head tail edge_type description : String) : Except String Link :=
  match validate_node head "head" with
  | Except.error e => Except.error e
  | Except.ok _ =>
    match validate_node tail "tail" with
    | Except.error e => Except.error e
    | Except.ok _ => Except.ok ⟨head, tail, edge_type, description⟩

/-- The Python default argument `description: str = ""`. -/
def Link.createDefault (head tail edge_type : String) : Except String Link :=
  Link.create head tail edge_type ""

/-- Split a character list at every `-`, keeping empty groups: the
hyphen-separated groups the spec describes. -/
def splitDash : List Char → List (List Char)
  | [] => [[]]
  | c :: cs =>
    if c = '-' then [] :: splitDash cs
    else
      match splitDash cs with
      | [] => [[c]]
      | g :: gs => (c :: g) :: gs

/-- The groups have the stated lengths and consist of characters of the
class `hex`. -/
def groupsOkBy (hex : Char → Bool) : List Nat → List (List Char) → Bool
  | [], [] => true
  | n :: ns, g :: gs => (g.length == n) && g.all hex && groupsOkBy hex ns gs
  | _, _ => false

/-- Modelled from the spec's words: the canonical lowercase-hex-with-hyphens
36-character identifier pattern — five hyphen-separated groups of 8, 4, 4, 4
and 12 lowercase hex digits (the four hyphens make the total length 36). -/
def canonList (cs : List Char) : Bool :=
  groupsOkBy isLowerHex [8, 4, 4, 4, 12] (splitDash cs)

/-- The canonical identifier pattern, on strings. -/
def canonicalGuid (s : String) : Bool :=
  canonList s.data

/-- The same five-group 8-4-4-4-12 shape over the source's character class:
Unicode decimal digits or a-f letters in each group. -/
def pyCanonList (cs : List Char) : Bool :=
  groupsOkBy guidClassChar [8, 4, 4, 4, 12] (splitDash cs)

/-- The decomposition a successful `consumeGuidBody` run certifies: five
groups over the class `hex` of lengths 8, 4, 4, 4, 12, separated by
hyphens, followed by the unconsumed rest `r`. -/
def GuidShapeBy (hex : Char → Bool) (cs r : List Char) : Prop :=
  ∃ g1 g2 g3 g4 g5 : List Char,
    g1.length = 8 ∧ g1.all hex = true ∧
    g2.length = 4 ∧ g2.all hex = true ∧
    g3.length = 4 ∧ g3.all hex = true ∧
    g4.length = 4 ∧ g4.all hex = true ∧
    g5.length = 12 ∧ g5.all hex = true ∧
    cs = g1 ++ '-' :: (g2 ++ '-' :: (g3 ++ '-' :: (g4 ++ '-' :: (g5 ++ r))))

theorem takeClassChars_eq_some_iff (hex : Char → Bool) (n : Nat) (cs r : List Char) :
    takeClassChars hex n cs = some r ↔
      ∃ p : List Char, p.length = n ∧ p.all hex = true ∧ cs = p ++ r := by
  induction n generalizing cs with
  | zero =>
    simp only [takeClassChars, Option.some_inj]
    constructor
    · rintro rfl; exact ⟨[], rfl, rfl, rfl⟩
    · rintro ⟨p, hp, _, rfl⟩
      rw [List.length_eq_zero.mp hp]
      rfl
  | succ n ih =>
    cases cs with
    | nil =>
      simp only [takeClassChars]
      constructor
      · intro h; cases h
      · rintro ⟨p, hp, _, heq⟩
        cases p with
        | nil => cases hp
        | cons a q => cases heq
    | cons c cs' =>
      simp only [takeClassChars]
      by_cases hc : hex c
      · rw [if_pos hc, ih cs']
        constructor
        · rintro ⟨p, hp, hhex, rfl⟩
          exact ⟨c :: p, by simp [hp], by simp [List.all_cons, hc, hhex], rfl⟩
        · rintro ⟨p, hp, hhex, hE⟩
          cases p with
          | nil => cases hp
          | cons a q =>
            obtain ⟨rfl, rfl⟩ : a = c ∧ cs' = q ++ r := by
              constructor
              · exact (List.cons.injEq c cs' a (q ++ r) ▸ hE).1.symm
              · exact (List.cons.injEq c cs' a (q ++ r) ▸ hE).2
            refine ⟨q, by simpa using hp, ?_, rfl⟩
            simp only [List.all_cons, Bool.and_eq_true] at hhex
            exact hhex.2
      · rw [if_neg hc]
        constructor
        · intro h; cases h
        · rintro ⟨p, hp, hhex, hE⟩
          cases p with
          | nil => cases hp
          | cons a q =>
            have ha : a = c := ((List.cons.injEq c cs' a (q ++ r) ▸ hE).1).symm
            subst ha
            simp only [List.all_cons, Bool.and_eq_true] at hhex
            exact absurd hhex.1 hc

theorem takeLit_eq_some_iff (ch : Char) (cs r : List Char) :
    takeLit ch cs = some r ↔ cs = ch :: r := by
  cases cs with
  | nil =>
    simp only [takeLit]
    constructor
    · intro h; cases h
    · intro h; cases h
  | cons c cs' =>
    simp only [takeLit]
    by_cases hc : c = ch
    · subst hc
      simp
    · rw [if_neg hc]
      constructor
      · intro h; cases h
      · intro h
        exact absurd ((List.cons.injEq c cs' ch r ▸ h).1) hc

theorem consumeGuidBody_eq_some_iff (cs r : List Char) :
    consumeGuidBody cs = some r ↔ GuidShapeBy guidClassChar cs r := by
  simp only [consumeGuidBody, GuidShapeBy, bind, Option.bind_eq_some,
    takeClassChars_eq_some_iff, takeLit_eq_some_iff]
  constructor
  · rintro ⟨r1, ⟨g1, hl1, hh1, rfl⟩, r2, rfl, r3, ⟨g2, hl2, hh2, rfl⟩, r4, rfl,
      r5, ⟨g3, hl3, hh3, rfl⟩, r6, rfl, r7, ⟨g4, hl4, hh4, rfl⟩, r8, rfl,
      g5, hl5, hh5, rfl⟩
    exact ⟨g1, g2, g3, g4, g5, hl1, hh1, hl2, hh2, hl3, hh3, hl4, hh4, hl5, hh5, rfl⟩
  · rintro ⟨g1, g2, g3, g4, g5, hl1, hh1, hl2, hh2, hl3, hh3, hl4, hh4, hl5, hh5, rfl⟩
    exact ⟨_, ⟨g1, hl1, hh1, rfl⟩, _, rfl, _, ⟨g2, hl2, hh2, rfl⟩, _, rfl,
      _, ⟨g3, hl3, hh3, rfl⟩, _, rfl, _, ⟨g4, hl4, hh4, rfl⟩, _, rfl,
      g5, hl5, hh5, rfl⟩

theorem splitDash_ne_nil (cs : List Char) : splitDash cs ≠ [] := by
  cases cs with
  | nil => simp [splitDash]
  | cons c cs' =>
    simp only [splitDash]
    by_cases hc : c = '-'
    · simp [hc]
    · rw [if_neg hc]
      cases h : splitDash cs' <;> simp

theorem splitDash_no_dash (g : List Char) (h : ∀ c ∈ g, c ≠ '-') :
    splitDash g = [g] := by
  induction g with
  | nil => rfl
  | cons c g' ih =>
    simp only [splitDash]
    rw [if_neg (h c (List.mem_cons_self c g'))]
    rw [ih (fun x hx => h x (List.mem_cons_of_mem _ hx))]

theorem splitDash_group (g rest : List Char) (h : ∀ c ∈ g, c ≠ '-') :
    splitDash (g ++ '-' :: rest) = g :: splitDash rest := by
  induction g with
  | nil => simp [splitDash]
  | cons c g' ih =>
    simp only [List.cons_append, splitDash]
    rw [if_neg (h c (List.mem_cons_self c g'))]
    rw [List.append_eq, ih (fun x hx => h x (List.mem_cons_of_mem _ hx))]

/-- Rejoin hyphen-separated groups. -/
def joinDash : List (List Char) → List Char
  | [] => []
  | [g] => g
  | g :: gs => g ++ '-' :: joinDash gs

theorem joinDash_splitDash (cs : List Char) : joinDash (splitDash cs) = cs := by
  induction cs with
  | nil => rfl
  | cons c cs' ih =>
    obtain ⟨g, gs, hg⟩ : ∃ g gs, splitDash cs' = g :: gs := by
      cases h : splitDash cs' with
      | nil => exact absurd h (splitDash_ne_nil cs')
      | cons g gs => exact ⟨g, gs, rfl⟩
    simp only [splitDash]
    by_cases hc : c = '-'
    · subst hc
      rw [if_pos rfl, hg]
      show '-' :: joinDash (g :: gs) = '-' :: cs'
      rw [← hg, ih]
    · rw [if_neg hc, hg]
      cases gs with
      | nil =>
        have hgcs : g = cs' := by rw [hg] at ih; exact ih
        subst hgcs
        rfl
      | cons g2 gs2 =>
        show (c :: g) ++ '-' :: joinDash (g2 :: gs2) = c :: cs'
        rw [hg] at ih
        show c :: (g ++ '-' :: joinDash (g2 :: gs2)) = c :: cs'
        rw [show g ++ '-' :: joinDash (g2 :: gs2) = joinDash (g :: g2 :: gs2) from rfl, ih]

theorem guidClassChar_ne_dash (c : Char) (h : guidClassChar c = true) : c ≠ '-' := by
  intro hc
  subst hc
  exact absurd h (by decide)

theorem all_class_no_dash (hex : Char → Bool) (hne : ∀ c : Char, hex c = true → c ≠ '-')
    (g : List Char) (h : g.all hex = true) :
    ∀ c ∈ g, c ≠ '-' := by
  intro c hc
  exact hne c (List.all_eq_true.mp h c hc)

theorem groupsOkBy_guid_iff (hex : Char → Bool) (gs : List (List Char)) :
    groupsOkBy hex [8, 4, 4, 4, 12] gs = true ↔
      ∃ g1 g2 g3 g4 g5 : List Char,
        gs = [g1, g2, g3, g4, g5] ∧
        g1.length = 8 ∧ g1.all hex = true ∧
        g2.length = 4 ∧ g2.all hex = true ∧
        g3.length = 4 ∧ g3.all hex = true ∧
        g4.length = 4 ∧ g4.all hex = true ∧
        g5.length = 12 ∧ g5.all hex = true := by
  rcases gs with _ | ⟨g1, _ | ⟨g2, _ | ⟨g3, _ | ⟨g4, _ | ⟨g5, _ | ⟨g6, gs'⟩⟩⟩⟩⟩⟩ <;>
    simp [groupsOkBy, Bool.and_eq_true, beq_iff_eq, and_assoc]

theorem canonListBy_iff_shape (hex : Char → Bool)
    (hne : ∀ c : Char, hex c = true → c ≠ '-') (cs : List Char) :
    groupsOkBy hex [8, 4, 4, 4, 12] (splitDash cs) = true ↔ GuidShapeBy hex cs [] := by
  constructor
  · intro h
    rw [groupsOkBy_guid_iff] at h
    obtain ⟨g1, g2, g3, g4, g5, hgs, hl1, hh1, hl2, hh2, hl3, hh3, hl4, hh4, hl5, hh5⟩ := h
    refine ⟨g1, g2, g3, g4, g5, hl1, hh1, hl2, hh2, hl3, hh3, hl4, hh4, hl5, hh5, ?_⟩
    have hjoin := joinDash_splitDash cs
    rw [hgs] at hjoin
    rw [← hjoin]
    simp [joinDash]
  · rintro ⟨g1, g2, g3, g4, g5, hl1, hh1, hl2, hh2, hl3, hh3, hl4, hh4, hl5, hh5, rfl⟩
    rw [splitDash_group g1 _ (all_class_no_dash hex hne g1 hh1),
      splitDash_group g2 _ (all_class_no_dash hex hne g2 hh2),
      splitDash_group g3 _ (all_class_no_dash hex hne g3 hh3),
      splitDash_group g4 _ (all_class_no_dash hex hne g4 hh4)]
    rw [show g5 ++ ([] : List Char) = g5 from List.append_nil g5]
    rw [splitDash_no_dash g5 (all_class_no_dash hex hne g5 hh5)]
    simp [groupsOkBy, hl1, hh1, hl2, hh2, hl3, hh3, hl4, hh4, hl5, hh5]

theorem pyCanonList_iff_shape (cs : List Char) :
    pyCanonList cs = true ↔ GuidShapeBy guidClassChar cs [] := by
  rw [pyCanonList]
  exact canonListBy_iff_shape guidClassChar guidClassChar_ne_dash cs

theorem consumeGuidBody_newline_iff (cs : List Char) :
    consumeGuidBody cs = some ['\n'] ↔
      cs.getLast? = some '\n' ∧ pyCanonList cs.dropLast = true := by
  rw [consumeGuidBody_eq_some_iff]
  constructor
  · rintro ⟨g1, g2, g3, g4, g5, hl1, hh1, hl2, hh2, hl3, hh3, hl4, hh4, hl5, hh5, rfl⟩
    have hcore :
        g1 ++ '-' :: (g2 ++ '-' :: (g3 ++ '-' :: (g4 ++ '-' :: (g5 ++ (['\n'] : List Char)))))
          = (g1 ++ '-' :: (g2 ++ '-' :: (g3 ++ '-' :: (g4 ++ '-' :: g5)))) ++ ['\n'] := by
      simp [List.append_assoc]
    rw [hcore]
    refine ⟨List.getLast?_concat _, ?_⟩
    rw [List.dropLast_concat, pyCanonList_iff_shape]
    exact ⟨g1, g2, g3, g4, g5, hl1, hh1, hl2, hh2, hl3, hh3, hl4, hh4, hl5, hh5, by simp⟩
  · rintro ⟨hlast, hdrop⟩
    have hcs : cs = cs.dropLast ++ ['\n'] := (List.dropLast_append_getLast? '\n' hlast).symm
    rw [pyCanonList_iff_shape] at hdrop
    obtain ⟨g1, g2, g3, g4, g5, hl1, hh1, hl2, hh2, hl3, hh3, hl4, hh4, hl5, hh5, hEq⟩ := hdrop
    refine ⟨g1, g2, g3, g4, g5, hl1, hh1, hl2, hh2, hl3, hh3, hl4, hh4, hl5, hh5, ?_⟩
    rw [hcs, hEq]
    simp [List.append_assoc]

/-- The acceptance set of the source's matcher, in terms of the group
pattern: the 8-4-4-4-12 hyphen-separated shape over the source's class
(Unicode decimal digits or a-f), optionally followed by a single trailing
newline (the extra acceptance Python's `$` semantics provides). -/
def pyGuidAccepts (s : String) : Bool :=
  pyCanonList s.data || ((s.data.getLast? == some '\n') && pyCanonList s.data.dropLast)

theorem guidPatternMatch_eq_py (s : String) :
    guidPatternMatch s = pyGuidAccepts s := by
  rw [guidPatternMatch, pyGuidAccepts]
  rcases hm : consumeGuidBody s.data with _ | r
  · have h1 : pyCanonList s.data = false := by
      rcases hb : pyCanonList s.data with _ | _
      · rfl
      · exfalso
        have := (consumeGuidBody_eq_some_iff s.data []).mpr ((pyCanonList_iff_shape s.data).mp hb)
        rw [hm] at this
        cases this
    have h2 : ((s.data.getLast? == some '\n') && pyCanonList s.data.dropLast) = false := by
      rcases hb : (s.data.getLast? == some '\n') && pyCanonList s.data.dropLast with _ | _
      · rfl
      · exfalso
        rw [Bool.and_eq_true, beq_iff_eq] at hb
        have := (consumeGuidBody_newline_iff s.data).mpr ⟨hb.1, hb.2⟩
        rw [hm] at this
        cases this
    rw [h1, h2]
    rfl
  · show (r == [] || r == ['\n'])
        = (pyCanonList s.data || ((s.data.getLast? == some '\n') && pyCanonList s.data.dropLast))
    have hcan : pyCanonList s.data = true ↔ r = [] := by
      rw [pyCanonList_iff_shape, ← consumeGuidBody_eq_some_iff, hm]
      exact ⟨fun h => (Option.some_inj.mp h), fun h => by rw [h]⟩
    have hnl : ((s.data.getLast? == some '\n') && pyCanonList s.data.dropLast) = true
        ↔ r = ['\n'] := by
      rw [Bool.and_eq_true, beq_iff_eq, ← consumeGuidBody_newline_iff, hm]
      exact ⟨fun h => (Option.some_inj.mp h), fun h => by rw [h]⟩
    by_cases h0 : r = []
    · subst h0
      rw [hcan.mpr rfl]
      simp
    · by_cases h1 : r = ['\n']
      · subst h1
        rw [hnl.mpr rfl]
        simp
      · have e0 : (r == ([] : List Char)) = false := by
          rcases hb : (r == ([] : List Char)) with _ | _
          · rfl
          · exact absurd (beq_iff_eq.mp hb) h0
        have e1 : (r == (['\n'] : List Char)) = false := by
          rcases hb : (r == (['\n'] : List Char)) with _ | _
          · rfl
          · exact absurd (beq_iff_eq.mp hb) h1
        have e2 : pyCanonList s.data = false := by
          rcases hb : pyCanonList s.data with _ | _
          · rfl
          · exact absurd (hcan.mp hb) h0
        have e3 : ((s.data.getLast? == some '\n') && pyCanonList s.data.dropLast) = false := by
          rcases hb : (s.data.getLast? == some '\n') && pyCanonList s.data.dropLast with _ | _
          · rfl
          · exact absurd (hnl.mp hb) h1
        rw [e0, e1, e2, e3]

end Links

section ClaimsThread

/-- A concrete callable that returns `n`, for evaluating the theorems. -/
def okCallable (n : Nat) : PyCallable Nat String Nat :=
  fun _ _ => Except.ok n

/-- A concrete callable that raises `msg`, for evaluating the theorems. -/
def errCallable (msg : String) : PyCallable Nat String Nat :=
  fun _ _ => Except.error msg

/-- Claim C1: for a handle whose callable raised a failure, collecting twice
is asymmetric — the first `output` raises the captured failure and clears it
from the handle, and the second `output` raises nothing and yields no value
(and leaves the handle unchanged). -/
theorem claim1_failing_collect_single_shot {V E T : Type u}
    (c : PyCallable V E T) (a : List V) (k : List (String × V)) (e : E)
    (h : c a k = Except.error e) :
    ((((RespondingThread.create c a k).run).output).1 = Except.error e ∧
      (((RespondingThread.create c a k).run).output).2._exception = none) ∧
    (((((RespondingThread.create c a k).run).output).2.output).1 = Except.ok none ∧
      ((((RespondingThread.create c a k).run).output).2.output).2
        = (((RespondingThread.create c a k).run).output).2) := by
  simp [RespondingThread.create, RespondingThread.run, RespondingThread.output, h]

/-- Witness for C1 at a concrete failing callable. -/
theorem claim1_witness :
    ((((RespondingThread.create (errCallable "boom") [] []).run).output).1
        = Except.error "boom" ∧
      (((RespondingThread.create (errCallable "boom") [] []).run).output).2._exception
        = none) ∧
    (((((RespondingThread.create (errCallable "boom") [] []).run).output).2.output).1
        = Except.ok none ∧
      ((((RespondingThread.create (errCallable "boom") [] []).run).output).2.output).2
        = (((RespondingThread.create (errCallable "boom") [] []).run).output).2) :=
  claim1_failing_collect_single_shot (errCallable "boom") [] [] "boom" rfl

/-- Claim C5: the worker body catches any failure the callable raises and
stores it as the captured failure; on normal completion it stores the value.
`run` is a total function on handle states — the failure never escapes the
execution body in either branch. -/
theorem claim5_run_captures_failure {V E T : Type u}
    (c : PyCallable V E T) (a : List V) (k : List (String × V)) :
    ((RespondingThread.create c a k).run)._exception
        = (match c a k with
          | Except.error e => some e
          | Except.ok _ => none) ∧
    ((RespondingThread.create c a k).run)._output
        = (match c a k with
          | Except.ok v => some v
          | Except.error _ => none) := by
  cases h : c a k <;>
    simp [RespondingThread.create, RespondingThread.run, h]

/-- Claim C8: for a handle whose callable completed normally, collection is
idempotent — the first `output` returns the stored value without modifying
the handle, and a second `output` returns the same value; the stored value
is never cleared. -/
theorem claim8_success_collect_idempotent {V E T : Type u}
    (c : PyCallable V E T) (a : List V) (k : List (String × V)) (v : T)
    (h : c a k = Except.ok v) :
    ((((RespondingThread.create c a k).run).output).1 = Except.ok (some v) ∧
      (((RespondingThread.create c a k).run).output).2
        = (RespondingThread.create c a k).run) ∧
    (((((RespondingThread.create c a k).run).output).2.output).1 = Except.ok (some v) ∧
      (((RespondingThread.create c a k).run).output).2._output = some v) := by
  simp [RespondingThread.create, RespondingThread.run, RespondingThread.output, h]

/-- Witness for C8 at a concrete successful callable. -/
theorem claim8_witness :
    ((((RespondingThread.create (okCallable 42) [] []).run).output).1
        = Except.ok (some 42) ∧
      (((RespondingThread.create (okCallable 42) [] []).run).output).2
        = (RespondingThread.create (okCallable 42) [] []).run) ∧
    (((((RespondingThread.create (okCallable 42) [] []).run).output).2.output).1
        = Except.ok (some 42) ∧
      (((RespondingThread.create (okCallable 42) [] []).run).output).2._output
        = some 42) :=
  claim8_success_collect_idempotent (okCallable 42) [] [] 42 rfl

/-- Claim C9: at most one of the two result slots is ever set — both are
unset at construction, the worker body sets exactly one, and every state
reachable in the lifecycle (construction, one run, any number of
collections) has at most one slot set. -/
theorem claim9_at_most_one_slot {V E T : Type u} :
    (∀ (c : PyCallable V E T) (a : List V) (k : List (String × V)),
      (RespondingThread.create c a k)._exception = none ∧
      (RespondingThread.create c a k)._output = none) ∧
    (∀ (c : PyCallable V E T) (a : List V) (k : List (String × V)),
      RespondingThread.exactlyOne ((RespondingThread.create c a k).run)) ∧
    (∀ t : RespondingThread V E T, RespondingThread.Reachable t →
      RespondingThread.atMostOne t) := by
  refine ⟨fun c a k => ⟨rfl, rfl⟩, fun c a k => ?_, fun t ht => ?_⟩
  · cases h : c a k <;>
      simp [RespondingThread.create, RespondingThread.run, RespondingThread.exactlyOne, h]
  · induction ht with
    | created c a k => exact Or.inl rfl
    | ran c a k =>
      cases h : c a k with
      | ok v =>
        left
        simp [RespondingThread.create, RespondingThread.run, h]
      | error e =>
        right
        simp [RespondingThread.create, RespondingThread.run, h]
    | collected hr ih =>
      rename_i t'
      rcases he : t'._exception with _ | e
      · simpa [RespondingThread.output, he] using ih
      · left
        simp [RespondingThread.output, he]

/-- Witness for C9's invariant at a concrete reachable state: a handle that
failed, ran and was collected twice. -/
theorem claim9_witness :
    RespondingThread.atMostOne
      (((((RespondingThread.create (errCallable "x") [] []).run).output).2.output).2) :=
  claim9_at_most_one_slot.2.2 _
    (RespondingThread.Reachable.collected
      (RespondingThread.Reachable.collected
        (RespondingThread.Reachable.ran (errCallable "x") [] [])))

theorem zip_take_eq {A B : Type u} (l1 : List A) (l2 : List B) (n : Nat) :
    (l1.zip l2).take n = (l1.take n).zip (l2.take n) := by
  simp [List.zip_eq_zipWith, List.take_zipWith]

theorem outcomes_length {V E T : Type u} (cs : List (PyCallable V E T))
    (as : List (List V)) (ks : List (List (String × V))) :
    (outcomes cs as ks).length = min cs.length (min as.length ks.length) := by
  simp [outcomes, List.length_zip]

theorem outcomes_take_eq {V E T : Type u} (cs : List (PyCallable V E T))
    (as : List (List V)) (ks : List (List (String × V))) :
    outcomes (cs.take (min cs.length (min as.length ks.length)))
        (as.take (min cs.length (min as.length ks.length)))
        (ks.take (min cs.length (min as.length ks.length)))
      = outcomes cs as ks := by
  unfold outcomes
  rw [← zip_take_eq as ks, ← zip_take_eq cs (as.zip ks)]
  rw [List.take_of_length_le]
  rw [List.length_zip, List.length_zip]

theorem firstFailureSemantics_ok_length {E T : Type u} (l : List (Except E T))
    (vs : List (Option T)) (h : firstFailureSemantics l = Except.ok vs) :
    vs.length = l.length := by
  induction l generalizing vs with
  | nil =>
    simp only [firstFailureSemantics, Except.ok.injEq] at h
    subst h
    rfl
  | cons a rest ih =>
    cases a with
    | error e => cases h
    | ok v =>
      simp only [firstFailureSemantics] at h
      cases hrest : firstFailureSemantics rest with
      | error e => rw [hrest] at h; cases h
      | ok ws =>
        rw [hrest] at h
        simp only [Except.map, Except.ok.injEq] at h
        subst h
        simp [ih ws hrest]

theorem firstFailureSemantics_all_ok {E T : Type u} (l : List (Except E T))
    (h : ∀ r ∈ l, ∃ v, r = Except.ok v) :
    ∃ vs : List (Option T), firstFailureSemantics l = Except.ok vs ∧ vs.length = l.length := by
  induction l with
  | nil => exact ⟨[], rfl, rfl⟩
  | cons a rest ih =>
    obtain ⟨v, rfl⟩ := h a (List.mem_cons_self a rest)
    obtain ⟨vs, hvs, hlen⟩ := ih (fun r hr => h r (List.mem_cons_of_mem _ hr))
    exact ⟨some v :: vs, by simp [firstFailureSemantics, hvs, Except.map], by simp [hlen]⟩

/-- Claim C2 as stated is false on the code: with `args` of length 1 against
two callables, `thread_map` raises no length error at all — it silently
drops the second callable (whose failure is never even produced) and
returns a one-element success list. -/
theorem claim2_counterexample :
    thread_map [okCallable 1, errCallable "never-run"] (some [[5]]) none
      = Except.ok [some 1] := rfl

/-- Claim C2 amended: `thread_map` performs no length validation at entry —
when the (supplied) `args` and `kwargs` disagree in length with `callables`,
no error of any kind is raised at entry; if every callable in the zipped
(minimum-length) range succeeds, the call returns a success list of the
minimum length. -/
theorem claim2_amended_no_length_check {V E T : Type u}
    (cs : List (PyCallable V E T)) (as : List (List V)) (ks : List (List (String × V)))
    (h : ∀ r ∈ outcomes cs as ks, ∃ v, r = Except.ok v) :
    ∃ vs, thread_map cs (some as) (some ks) = Except.ok vs ∧
      vs.length = min cs.length (min as.length ks.length) := by
  obtain ⟨vs, hvs, hlen⟩ := firstFailureSemantics_all_ok (outcomes cs as ks) h
  refine ⟨vs, ?_, ?_⟩
  · rw [thread_map_eq_spec]
    exact hvs
  · rw [hlen, outcomes_length]

/-- Witness for the amended C2: two callables against one argument tuple —
no error, and a result of length `min 2 (min 1 2) = 1`. -/
theorem claim2_witness :
    ∃ vs, thread_map [okCallable 1, errCallable "never-run"] (some [[5]]) (some [[], []])
        = Except.ok vs ∧ vs.length = min 2 (min 1 2) :=
  claim2_amended_no_length_check [okCallable 1, errCallable "never-run"] [[5]] [[], []]
    (by
      intro r hr
      have hout : outcomes [okCallable 1, errCallable "never-run"] [[5]] [[], []]
          = [Except.ok 1] := rfl
      rw [hout] at hr
      exact ⟨1, List.mem_singleton.mp hr⟩)

/-- Claim C3: if the callable at index `k` raises `e` and every
lower-indexed callable succeeds, `thread_map` raises exactly `e` (the
original failure value, unchanged), whatever the higher-indexed callables
do — their failures are discarded and never observed. -/
theorem claim3_lowest_index_failure {V E T : Type u}
    (cs : List (PyCallable V E T)) (aOpt : Option (List (List V)))
    (kOpt : Option (List (List (String × V)))) (k : Nat) (e : E)
    (hk : (outcomes cs (resolveArgs cs aOpt) (resolveKwargs cs kOpt))[k]?
      = some (Except.error e))
    (hok : ∀ j : Nat, j < k → ∀ r : Except E T,
      (outcomes cs (resolveArgs cs aOpt) (resolveKwargs cs kOpt))[j]? = some r →
      ∃ v, r = Except.ok v) :
    thread_map cs aOpt kOpt = Except.error e := by
  rw [thread_map_eq_spec]
  exact firstFailureSemantics_error_at _ k e hk hok

/-- Witness for C3: a success at index 0, failures at indices 1 and 2 — the
batch raises the index-1 failure, and the index-2 failure is discarded. -/
theorem claim3_witness :
    thread_map [okCallable 7, errCallable "first", errCallable "second"] none none
      = Except.error "first" :=
  claim3_lowest_index_failure [okCallable 7, errCallable "first", errCallable "second"]
    none none 1 "first" rfl
    (by
      intro j hj r hr
      have hj0 : j = 0 := by omega
      subst hj0
      refine ⟨7, ?_⟩
      have : some (Except.ok 7) = some r := by
        rw [← hr]
        rfl
      exact (Option.some_inj.mp this).symm)

/-- Claim C4: for a batch of callables that all complete normally, with
`args`/`kwargs` each either omitted or of matching length, `thread_map`
returns the list of their return values, one per callable, in input
order. -/
theorem claim4_success_ordered_results {V E T : Type u}
    (cs : List (PyCallable V E T)) (aOpt : Option (List (List V)))
    (kOpt : Option (List (List (String × V))))
    (as : List (List V)) (ks : List (List (String × V))) (vs : List T)
    (ha : aOpt = none ∧ as = List.replicate cs.length [] ∨
      aOpt = some as ∧ as.length = cs.length)
    (hk : kOpt = none ∧ ks = List.replicate cs.length [] ∨
      kOpt = some ks ∧ ks.length = cs.length)
    (hv : outcomes cs as ks = vs.map Except.ok) :
    thread_map cs aOpt kOpt = Except.ok (vs.map some) ∧ vs.length = cs.length := by
  have hares : resolveArgs cs aOpt = as := by
    rcases ha with ⟨rfl, rfl⟩ | ⟨rfl, _⟩ <;> rfl
  have hkres : resolveKwargs cs kOpt = ks := by
    rcases hk with ⟨rfl, rfl⟩ | ⟨rfl, _⟩ <;> rfl
  have halen : as.length = cs.length := by
    rcases ha with ⟨_, rfl⟩ | ⟨_, h⟩
    · exact List.length_replicate cs.length []
    · exact h
  have hklen : ks.length = cs.length := by
    rcases hk with ⟨_, rfl⟩ | ⟨_, h⟩
    · exact List.length_replicate cs.length []
    · exact h
  constructor
  · rw [thread_map_eq_spec, hares, hkres, hv, firstFailureSemantics_map_ok]
  · have h1 : (outcomes cs as ks).length = vs.length := by
      rw [hv, List.length_map]
    rw [outcomes_length, halen, hklen] at h1
    omega

/-- Witness for C4: two successful callables with omitted `args`/`kwargs`
give the two values in input order. -/
theorem claim4_witness :
    thread_map [okCallable 1, okCallable 2] none none
        = Except.ok [some 1, some 2] ∧ ([1, 2] : List Nat).length = 2 :=
  claim4_success_ordered_results [okCallable 1, okCallable 2] none none
    (List.replicate 2 []) (List.replicate 2 []) [1, 2]
    (Or.inl ⟨rfl, rfl⟩) (Or.inl ⟨rfl, rfl⟩) rfl

/-- Claim C10: when `args`/`kwargs` are supplied with shorter length,
`thread_map` silently runs only the first `min(len(callables), len(args),
len(kwargs))` tasks: the call behaves exactly like the call on the
truncated triple (later callables are never constructed or run), and a
successful result has exactly the minimum length. -/
theorem claim10_silent_truncation {V E T : Type u}
    (cs : List (PyCallable V E T)) (as : List (List V))
    (ks : List (List (String × V))) :
    thread_map cs (some as) (some ks)
        = thread_map (cs.take (min cs.length (min as.length ks.length)))
            (some (as.take (min cs.length (min as.length ks.length))))
            (some (ks.take (min cs.length (min as.length ks.length)))) ∧
    (∀ vs, thread_map cs (some as) (some ks) = Except.ok vs →
      vs.length = min cs.length (min as.length ks.length)) := by
  constructor
  · rw [thread_map_eq_spec, thread_map_eq_spec]
    simp only [resolveArgs, resolveKwargs]
    rw [outcomes_take_eq]
  · intro vs hvs
    rw [thread_map_eq_spec] at hvs
    have := firstFailureSemantics_ok_length _ vs hvs
    rw [outcomes_length] at this
    exact this

/-- Witness for C10's length conjunct at a concrete truncating call. -/
theorem claim10_witness :
    ([some 1] : List (Option Nat)).length = min 2 (min 1 2) :=
  (claim10_silent_truncation [okCallable 1, okCallable 2] [[]] [[], []]).2
    [some 1] rfl

theorem trace_start_elim (n i p : Nat)
    (h : (thread_map_trace n)[p]? = some (TMEvent.start i)) : p < n ∧ i = p := by
  unfold thread_map_trace at h
  have hlen : (List.map TMEvent.start (List.range n)).length = n := by
    rw [List.length_map, List.length_range]
  rw [List.getElem?_append] at h
  by_cases hp : p < n
  · rw [if_pos (by rw [hlen]; exact hp)] at h
    rw [List.getElem?_map, List.getElem?_range hp] at h
    simp only [Option.map_some', Option.some_inj] at h
    injection h with h2
    exact ⟨hp, h2.symm⟩
  · exfalso
    rw [if_neg (by rw [hlen]; exact hp)] at h
    rw [List.getElem?_map] at h
    cases hq : (List.range n)[p - (List.map TMEvent.start (List.range n)).length]? with
    | none => rw [hq] at h; cases h
    | some x => rw [hq] at h; simp only [Option.map_some', Option.some_inj] at h; cases h

theorem trace_collect_elim (n j q : Nat)
    (h : (thread_map_trace n)[q]? = some (TMEvent.collect j)) : q = n + j ∧ j < n := by
  unfold thread_map_trace at h
  have hlen : (List.map TMEvent.start (List.range n)).length = n := by
    rw [List.length_map, List.length_range]
  rw [List.getElem?_append] at h
  by_cases hq : q < n
  · exfalso
    rw [if_pos (by rw [hlen]; exact hq)] at h
    rw [List.getElem?_map, List.getElem?_range hq] at h
    simp only [Option.map_some', Option.some_inj] at h
    cases h
  · rw [if_neg (by rw [hlen]; exact hq), hlen] at h
    rw [List.getElem?_map] at h
    by_cases hqn : q - n < n
    · rw [List.getElem?_range hqn] at h
      simp only [Option.map_some', Option.some_inj] at h
      have : q - n = j := by
        have := TMEvent.collect.injEq (q - n) j ▸ h
        exact (TMEvent.collect.injEq (q - n) j).mp h
      omega
    · exfalso
      rw [List.getElem?_eq_none (by rw [List.length_range]; omega)] at h
      cases h

/-- Claim C7: full fan-out before fan-in — in the event order of
`thread_map`'s body every worker start precedes every collection, the
collections happen strictly in input index order, and the collected results
are independent of the order in which the workers' bodies actually complete
(any permutation schedule yields exactly `thread_map`'s result). -/
theorem claim7_fanout_before_fanin :
    (∀ n i j p q : Nat,
      (thread_map_trace n)[p]? = some (TMEvent.start i) →
      (thread_map_trace n)[q]? = some (TMEvent.collect j) → p < q) ∧
    (∀ n i j p q : Nat,
      (thread_map_trace n)[p]? = some (TMEvent.collect i) →
      (thread_map_trace n)[q]? = some (TMEvent.collect j) → (p < q ↔ i < j)) ∧
    (∀ {V E T : Type u} (cs : List (PyCallable V E T))
      (aOpt : Option (List (List V))) (kOpt : Option (List (List (String × V))))
      (σ : List Nat),
      σ.Perm (List.range
        (buildThreads cs (resolveArgs cs aOpt) (resolveKwargs cs kOpt)).length) →
      collectAll (runSchedule
          (buildThreads cs (resolveArgs cs aOpt) (resolveKwargs cs kOpt)) σ)
        = thread_map cs aOpt kOpt) := by
  refine ⟨fun n i j p q hp hq => ?_, fun n i j p q hp hq => ?_, ?_⟩
  · obtain ⟨hpn, _⟩ := trace_start_elim n i p hp
    obtain ⟨rfl, _⟩ := trace_collect_elim n j q hq
    omega
  · obtain ⟨rfl, _⟩ := trace_collect_elim n i p hp
    obtain ⟨rfl, _⟩ := trace_collect_elim n j q hq
    omega
  · intro V E T cs aOpt kOpt σ hσ
    rw [runSchedule_perm _ σ hσ]
    cases aOpt <;> cases kOpt <;> rfl

/-- Witness for C7 at a two-callable batch: start 0 (position 0) precedes
collect 0 (position 2), collect 0 precedes collect 1, and the reversed
completion schedule `[1, 0]` yields `thread_map`'s result. -/
theorem claim7_witness :
    ((0 : Nat) < 2 ∧ ((2 : Nat) < 3 ↔ (0 : Nat) < 1)) ∧
    collectAll (runSchedule
        (buildThreads [okCallable 1, okCallable 2]
          (resolveArgs [okCallable 1, okCallable 2] none)
          (resolveKwargs [okCallable 1, okCallable 2] none)) [1, 0])
      = thread_map [okCallable 1, okCallable 2] none none :=
  ⟨⟨(claim7_fanout_before_fanin.{0}).1 2 0 0 0 2 rfl rfl,
    (claim7_fanout_before_fanin.{0}).2.1 2 0 1 2 3 rfl rfl⟩,
    (claim7_fanout_before_fanin.{0}).2.2 [okCallable 1, okCallable 2] none none [1, 0]
      (by decide)⟩

end ClaimsThread

section ClaimsLink

/-- Claim C6 as stated is false on the code: the constructor accepts inputs
outside the canonical 36-character pattern.  A canonical identifier followed
by a newline is accepted (Python's `$` matches just before a trailing
newline), and an identifier whose first group contains the Arabic-Indic
digit U+0663 is accepted (Python's `\d` matches any Unicode decimal digit);
neither input matches the canonical pattern, so "raises iff not canonical"
fails. -/
theorem claim6_counterexample :
    (Link.create "aaaaaaaa-bbbb-cccc-dddd-eeeeeeeeeeee\n"
        "aaaaaaaa-bbbb-cccc-dddd-eeeeeeeeeeee" "fit" ""
      = Except.ok ⟨"aaaaaaaa-bbbb-cccc-dddd-eeeeeeeeeeee\n",
          "aaaaaaaa-bbbb-cccc-dddd-eeeeeeeeeeee", "fit", ""⟩ ∧
    canonicalGuid "aaaaaaaa-bbbb-cccc-dddd-eeeeeeeeeeee\n" = false) ∧
    (Link.create "aaaaaaa٣-bbbb-cccc-dddd-eeeeeeeeeeee"
        "aaaaaaaa-bbbb-cccc-dddd-eeeeeeeeeeee" "fit" ""
      = Except.ok ⟨"aaaaaaa٣-bbbb-cccc-dddd-eeeeeeeeeeee",
          "aaaaaaaa-bbbb-cccc-dddd-eeeeeeeeeeee", "fit", ""⟩ ∧
    canonicalGuid "aaaaaaa٣-bbbb-cccc-dddd-eeeeeeeeeeee" = false) := by
  exact ⟨⟨rfl, rfl⟩, ⟨rfl, rfl⟩⟩

/-- Claim C6 amended: the constructor raises a validation error if and only
if `head` or `tail` fails the source pattern — five hyphen-separated groups
of 8, 4, 4, 4 and 12 characters, each a Unicode decimal digit or a
lowercase letter in a-f, optionally followed by one trailing newline;
`edge_type` and `description` are accepted unvalidated, and `description`
defaults to the empty string. -/
theorem claim6_amended_validation (head tail edge_type description : String) :
    (Link.create head tail edge_type description
        = Except.ok ⟨head, tail, edge_type, description⟩
      ↔ (pyGuidAccepts head = true ∧ pyGuidAccepts tail = true)) ∧
    ((∃ msg : String, Link.create head tail edge_type description = Except.error msg)
      ↔ (pyGuidAccepts head = false ∨ pyGuidAccepts tail = false)) ∧
    Link.createDefault head tail edge_type = Link.create head tail edge_type "" := by
  refine ⟨?_, ?_, rfl⟩ <;>
    rcases hh : pyGuidAccepts head with _ | _ <;>
      rcases ht : pyGuidAccepts tail with _ | _ <;>
        simp [Link.create, validate_node, guidPatternMatch_eq_py, hh, ht]

/-- Witness instantiating the amended C6 at an identifier containing a
Unicode decimal digit, which the source pattern accepts. -/
theorem claim6_witness :
    Link.create "aaaaaaa٣-bbbb-cccc-dddd-eeeeeeeeeeee"
        "aaaaaaaa-bbbb-cccc-dddd-eeeeeeeeeeee" "fit" ""
      = Except.ok ⟨"aaaaaaa٣-bbbb-cccc-dddd-eeeeeeeeeeee",
          "aaaaaaaa-bbbb-cccc-dddd-eeeeeeeeeeee", "fit", ""⟩ :=
  (claim6_amended_validation "aaaaaaa٣-bbbb-cccc-dddd-eeeeeeeeeeee"
      "aaaaaaaa-bbbb-cccc-dddd-eeeeeeeeeeee" "fit" "").1.mpr
    (by constructor <;> rfl)

end ClaimsLink
